import Mathlib

/-!
Shallow embedding of `src/main/drivers/pwm_output_hal.c` (the PWM output
port allocation and pulse dispatch driver).

Modelling conventions:
* C integers are modelled as `Nat` (resp. `Int` for intermediate signed
  arithmetic), with an explicit `% 2 ^ w` reduction where a C conversion
  to an unsigned machine type matters.
* The static mutable module state (the output-port pool, the motor and
  servo pointer tables, the allocation cursor and the enable flag) is a
  `PwmState` record threaded explicitly through every operation.
* C pointers into the pool are modelled as pool indices; a `NULL` pointer
  in the motor/servo tables, in a port's `tim` field or in its `ccr`
  field is `none`.  Dereferencing `none` is a crash, so every operation
  that performs an unguarded dereference returns an `Option`.
* Calls into the external Timer Abstraction (`timerForceOverflow`) are
  recorded as events; per spec section 5 no two ports alias the same
  compare register, so each port record carries its register's contents.
* `MAX_MOTORS` / `MAX_SERVOS` are platform macros not present under
  `src/`; they are passed as explicit parameters.
-/

/-- Write-strategy tag standing for the C function pointers
`pwmWriteStandard` / `pwmWriteBrushed` stored in `pwmWritePtr`. -/
inductive PwmWriteKind
  | standard
  | brushed
deriving DecidableEq, Repr

/-- One `pwmOutputPort_t` record.  `ccr = none` models a `NULL` compare
register pointer; `ccr = some v` models a bound register whose current
contents are `v` (ports never alias a register, spec section 5).
`tim = none` models a `NULL` `TIM_TypeDef*`. -/
structure PwmOutputPort where
  ccr : Option Nat
  tim : Option Nat
  period : Nat
  pwmWritePtr : Option PwmWriteKind
deriving DecidableEq, Repr

/-- Zero-initialized static `pwmOutputPort_t` (C statics start zeroed, so
all pointers are `NULL` and `period = 0`). -/
def initPort : PwmOutputPort :=
  { ccr := none, tim := none, period := 0, pwmWritePtr := none }

/-- The driver's static mutable state: the port pool `pwmOutputPorts`,
the `motors` and `servos` pointer tables (pool indices), the allocation
cursor `allocatedOutputPortCount`, and the enable gate `pwmMotorsEnabled`.
The fixed C array capacities are immaterial to the modelled operations,
so the pool and the tables are total maps over `Nat`. -/
structure PwmState where
  pwmOutputPorts : Nat → PwmOutputPort
  motors : Nat → Option Nat
  servos : Nat → Option Nat
  allocatedOutputPortCount : Nat
  pwmMotorsEnabled : Bool

/-- The state at program start: zeroed statics, `pwmMotorsEnabled = true`
(line 59 of the C file). -/
def initState : PwmState :=
  { pwmOutputPorts := fun _ => initPort
    motors := fun _ => none
    servos := fun _ => none
    allocatedOutputPortCount := 0
    pwmMotorsEnabled := true }

/-- Store `v` into the compare register bound to pool slot `pIdx`
(the C statement `*p->ccr = v`; the caller has checked the binding). -/
def setCcr (s : PwmState) (pIdx : Nat) (v : Nat) : PwmState :=
  { s with
    pwmOutputPorts := fun n =>
      if n = pIdx then { s.pwmOutputPorts n with ccr := some v }
      else s.pwmOutputPorts n }

/-- Width of the compare register type `timCCR_t`.  Modelled from the
spec: `timer.h` is not under `src/`; this translation unit is the STM32
HAL driver variant, whose compare registers are 32 bits wide. -/
def timCCRWidth : Nat := 32

/-- C conversion of a (possibly negative) `int` result to the unsigned
compare register type: reduction modulo `2 ^ timCCRWidth`. -/
def toCCR (x : Int) : Nat := (x % (2 ^ timCCRWidth : Int)).toNat

/-- The arithmetic of `pwmWriteBrushed` (line 129):
`(value - 1000) * period / 1000`, computed on C `int` (so the
subtraction can go negative and the division truncates toward zero),
then converted to the unsigned compare register. -/
def brushedTransform (value period : Nat) : Nat :=
  toCCR ((((value : Int) - 1000) * (period : Int)).tdiv 1000)

/-- The per-strategy value transform as stored into the register:
`standard` is a pass-through, `brushed` rescales by the port period. -/
def writeTransform : PwmWriteKind → Nat → Nat → Nat
  | .standard, v, _ => v
  | .brushed, v, p => brushedTransform v p

/-- `pwmWriteBrushed` (lines 127-130): dereferences `motors[index]` and
its `ccr` unguardedly, hence `Option`. -/
def pwmWriteBrushed (s : PwmState) (index value : Nat) : Option PwmState :=
  match s.motors index with
  | none => none
  | some pIdx =>
    match (s.pwmOutputPorts pIdx).ccr with
    | none => none
    | some _ =>
      some (setCcr s pIdx (brushedTransform value (s.pwmOutputPorts pIdx).period))

/-- `pwmWriteStandard` (lines 132-135). -/
def pwmWriteStandard (s : PwmState) (index value : Nat) : Option PwmState :=
  match s.motors index with
  | none => none
  | some pIdx =>
    match (s.pwmOutputPorts pIdx).ccr with
    | none => none
    | some _ => some (setCcr s pIdx value)

/-- `pwmWriteMotor` (lines 137-141): guarded by
`motors[index] && index < MAX_MOTORS && pwmMotorsEnabled` (in that
short-circuit order), then an indirect call through `pwmWritePtr`
(a `NULL` strategy pointer would crash, hence the inner `none`). -/
def pwmWriteMotor (MAX_MOTORS : Nat) (s : PwmState) (index value : Nat) :
    Option PwmState :=
  match s.motors index with
  | none => some s
  | some pIdx =>
    if decide (index < MAX_MOTORS) && s.pwmMotorsEnabled then
      match (s.pwmOutputPorts pIdx).pwmWritePtr with
      | some .brushed => pwmWriteBrushed s index value
      | some .standard => pwmWriteStandard s index value
      | none => none
    else some s

/-- `pwmWriteServo` (lines 217-221): guarded by
`servos[index] && index < MAX_SERVOS`, no enable-gate check; the `ccr`
dereference itself is unguarded. -/
def pwmWriteServo (MAX_SERVOS : Nat) (s : PwmState) (index value : Nat) :
    Option PwmState :=
  match s.servos index with
  | none => some s
  | some pIdx =>
    if decide (index < MAX_SERVOS) then
      match (s.pwmOutputPorts pIdx).ccr with
      | none => none
      | some _ => some (setCcr s pIdx value)
    else some s

/-- `pwmDisableMotors` (lines 153-156). -/
def pwmDisableMotors (s : PwmState) : PwmState :=
  { s with pwmMotorsEnabled := false }

/-- `pwmEnableMotors` (lines 158-161). -/
def pwmEnableMotors (s : PwmState) : PwmState :=
  { s with pwmMotorsEnabled := true }

/-- `isMotorBrushed` (lines 186-189): `motorPwmRate > 500`. -/
def isMotorBrushed (motorPwmRate : Nat) : Bool :=
  decide (motorPwmRate > 500)

/-- The loop body of `pwmShutdownPulsesForAllMotors` (lines 147-150),
iterated over the index list: `*motors[index]->ccr = 0` with no `NULL`
guard and no range guard, hence `Option`. -/
def pwmShutdownLoop (s : PwmState) : List Nat → Option PwmState
  | [] => some s
  | index :: rest =>
    match s.motors index with
    | none => none
    | some pIdx =>
      match (s.pwmOutputPorts pIdx).ccr with
      | none => none
      | some _ => pwmShutdownLoop (setCcr s pIdx 0) rest

/-- `pwmShutdownPulsesForAllMotors` (lines 143-151): zero the first
`motorCount` motor compare registers, unconditionally. -/
def pwmShutdownPulsesForAllMotors (s : PwmState) (motorCount : Nat) :
    Option PwmState :=
  pwmShutdownLoop s (List.range motorCount)

/-- Observable effects of `pwmCompleteOneshotMotorUpdate`: a call into
the Timer Abstraction's `timerForceOverflow(tim)` (the argument is the
dereferenced `motors[index]->tim`, possibly `NULL`), or a store of a
value into the compare register of pool slot `pIdx`. -/
inductive PwmEvent
  | forceOverflow (tim : Option Nat)
  | ccrWrite (pIdx : Nat) (value : Nat)
deriving DecidableEq, Repr

/-- First loop of `pwmCompleteOneshotMotorUpdate` (lines 168-176):
walk the index list, and whenever `motors[index]->tim` differs from
`lastTimerPtr` (initially `NULL`), update the cursor and call
`timerForceOverflow`.  `motors[index]` is dereferenced unguardedly. -/
def oneshotOverflowLoop (s : PwmState) :
    List Nat → Option Nat → Option (List PwmEvent)
  | [], _ => some []
  | index :: rest, lastTimerPtr =>
    match s.motors index with
    | none => none
    | some pIdx =>
      let tim := (s.pwmOutputPorts pIdx).tim
      if tim ≠ lastTimerPtr then
        (oneshotOverflowLoop s rest tim).map (PwmEvent.forceOverflow tim :: ·)
      else
        oneshotOverflowLoop s rest lastTimerPtr

/-- Second loop of `pwmCompleteOneshotMotorUpdate` (lines 177-182):
`*motors[index]->ccr = 0` for each index, unguarded dereferences. -/
def oneshotZeroLoop (s : PwmState) :
    List Nat → Option (PwmState × List PwmEvent)
  | [] => some (s, [])
  | index :: rest =>
    match s.motors index with
    | none => none
    | some pIdx =>
      match (s.pwmOutputPorts pIdx).ccr with
      | none => none
      | some _ =>
        (oneshotZeroLoop (setCcr s pIdx 0) rest).map
          (fun r => (r.1, PwmEvent.ccrWrite pIdx 0 :: r.2))

/-- `pwmCompleteOneshotMotorUpdate` (lines 163-184): the overflow pass
over motors `0..motorCount-1`, then the zeroing pass over the same
range.  Returns the final state and the ordered event trace. -/
def pwmCompleteOneshotMotorUpdate (s : PwmState) (motorCount : Nat) :
    Option (PwmState × List PwmEvent) :=
  match oneshotOverflowLoop s (List.range motorCount) none with
  | none => none
  | some ev1 =>
    match oneshotZeroLoop s (List.range motorCount) with
    | none => none
    | some (s', ev2) => some (s', ev1 ++ ev2)

/-- A `timerHardware_t` descriptor as far as this driver reads it:
the timer identity, the channel number (1..4 standing for
`TIM_CHANNEL_1..4`), the `outputEnable` flag, and whether
`timerFindTimerHandle(tim)` resolves (the external Timer Abstraction's
handle table is outside this translation unit, so its outcome is a
descriptor attribute here). -/
structure TimerHardware where
  tim : Nat
  channel : Nat
  outputEnable : Bool
  handleResolves : Bool
deriving DecidableEq, Repr

/-- `pwmOutConfig` (lines 90-125): take the pool slot at the allocation
cursor and post-increment the cursor; if the timer handle does not
resolve, return the untouched slot (half-initialized port).  Otherwise
configure the timebase/GPIO/channel externally, bind the compare
register (preloaded with `value` for channels 1..4; other channel codes
leave `ccr` unbound), and record `period` and `tim`.  Returns the new
state and the slot index the returned pointer refers to. -/
def pwmOutConfig (s : PwmState) (th : TimerHardware)
    (mhz period value : Nat) : PwmState × Nat :=
  let idx := s.allocatedOutputPortCount
  let s1 : PwmState := { s with allocatedOutputPortCount := idx + 1 }
  if th.handleResolves then
    let p0 := s1.pwmOutputPorts idx
    let p1 :=
      match th.channel with
      | 1 => { p0 with ccr := some value }
      | 2 => { p0 with ccr := some value }
      | 3 => { p0 with ccr := some value }
      | 4 => { p0 with ccr := some value }
      | _ => p0
    let p2 := { p1 with period := period, tim := some th.tim }
    ({ s1 with
        pwmOutputPorts := fun n => if n = idx then p2 else s1.pwmOutputPorts n },
      idx)
  else
    (s1, idx)

/-- Set the write-strategy pointer of pool slot `pIdx`
(`motors[motorIndex]->pwmWritePtr = ...` in the C config functions). -/
def setWritePtr (s : PwmState) (pIdx : Nat) (k : PwmWriteKind) : PwmState :=
  { s with
    pwmOutputPorts := fun n =>
      if n = pIdx then { s.pwmOutputPorts n with pwmWritePtr := some k }
      else s.pwmOutputPorts n }

/-- `pwmBrushedMotorConfig` (lines 191-196).  `PWM_BRUSHED_TIMER_MHZ`
comes from a header outside `src/`, so it is a parameter; the computed
`hz / motorPwmRate` is a `uint32` narrowed to the `uint16` period
parameter, hence the `% 65536`. -/
def pwmBrushedMotorConfig (s : PwmState) (th : TimerHardware)
    (motorIndex PWM_BRUSHED_TIMER_MHZ motorPwmRate idlePulse : Nat) : PwmState :=
  let hz := PWM_BRUSHED_TIMER_MHZ * 1000000
  let r := pwmOutConfig s th PWM_BRUSHED_TIMER_MHZ ((hz / motorPwmRate) % 65536) idlePulse
  let s2 := { r.1 with
    motors := fun n => if n = motorIndex then some r.2 else r.1.motors n }
  setWritePtr s2 r.2 .brushed

/-- `pwmBrushlessMotorConfig` (lines 198-203). -/
def pwmBrushlessMotorConfig (s : PwmState) (th : TimerHardware)
    (motorIndex PWM_TIMER_MHZ motorPwmRate idlePulse : Nat) : PwmState :=
  let hz := PWM_TIMER_MHZ * 1000000
  let r := pwmOutConfig s th PWM_TIMER_MHZ ((hz / motorPwmRate) % 65536) idlePulse
  let s2 := { r.1 with
    motors := fun n => if n = motorIndex then some r.2 else r.1.motors n }
  setWritePtr s2 r.2 .standard

/-- `pwmOneshotMotorConfig` (lines 205-209): fixed period `0xFFFF`,
initial value 0, standard strategy. -/
def pwmOneshotMotorConfig (s : PwmState) (th : TimerHardware)
    (motorIndex ONESHOT125_TIMER_MHZ : Nat) : PwmState :=
  let r := pwmOutConfig s th ONESHOT125_TIMER_MHZ 0xFFFF 0
  let s2 := { r.1 with
    motors := fun n => if n = motorIndex then some r.2 else r.1.motors n }
  setWritePtr s2 r.2 .standard

/-- `pwmServoConfig` (lines 212-215): period `1000000 / servoPwmRate`
narrowed to `uint16`; no strategy pointer is installed. -/
def pwmServoConfig (s : PwmState) (th : TimerHardware)
    (servoIndex PWM_TIMER_MHZ servoPwmRate servoCenterPulse : Nat) : PwmState :=
  let r := pwmOutConfig s th PWM_TIMER_MHZ ((1000000 / servoPwmRate) % 65536) servoCenterPulse
  { r.1 with
    servos := fun n => if n = servoIndex then some r.2 else r.1.servos n }

/-- Motor slot `i` is bound and its port's compare register is bound
(enough for the zeroing loops to run without crashing). -/
def motorCcrBound (s : PwmState) (i : Nat) : Bool :=
  match s.motors i with
  | none => false
  | some pIdx => (s.pwmOutputPorts pIdx).ccr.isSome

/-- Motor slot `i` is fully configured: bound slot, bound compare
register and an installed write strategy. -/
def motorFullyConfigured (s : PwmState) (i : Nat) : Bool :=
  match s.motors i with
  | none => false
  | some pIdx =>
    (s.pwmOutputPorts pIdx).ccr.isSome &&
      (s.pwmOutputPorts pIdx).pwmWritePtr.isSome

/-- The timer identity seen by the overflow pass at motor slot `i`
(meaningful when the slot is bound). -/
def motorTim (s : PwmState) (i : Nat) : Option Nat :=
  match s.motors i with
  | none => none
  | some pIdx => (s.pwmOutputPorts pIdx).tim

/-- The "last seen timer" deduplication of the overflow pass, as a pure
function on the per-index timer list: keep an element exactly when it
differs from the previously seen one (`last` starts as `NULL`). -/
def dedupScan : Option Nat → List (Option Nat) → List (Option Nat)
  | _, [] => []
  | last, t :: ts => if t ≠ last then t :: dedupScan t ts else dedupScan last ts

/-- A timer list is grouped when equal entries are index-adjacent: each
value's occurrences form one contiguous run.  Recursively: the tail is
grouped, and if the head value recurs in the tail it does so at the
tail's head. -/
def groupedTims : List (Option Nat) → Bool
  | [] => true
  | t :: ts => groupedTims ts && (!(decide (t ∈ ts)) || decide (ts.head? = some t))

/-- A fully configured state used to instantiate theorems: three motors
(ports 0..2, timers 1, 2, 1 — motors 0 and 2 share timer 1 at
non-adjacent indices) and one servo (port 3). -/
def demoState : PwmState :=
  { pwmOutputPorts := fun n =>
      if n = 0 then
        { ccr := some 1500, tim := some 1, period := 2000,
          pwmWritePtr := some .brushed }
      else if n = 1 then
        { ccr := some 1480, tim := some 2, period := 65535,
          pwmWritePtr := some .standard }
      else if n = 2 then
        { ccr := some 1200, tim := some 1, period := 250,
          pwmWritePtr := some .brushed }
      else if n = 3 then
        { ccr := some 1500, tim := some 3, period := 20000,
          pwmWritePtr := none }
      else initPort
    motors := fun n =>
      if n = 0 then some 0 else if n = 1 then some 1
      else if n = 2 then some 2 else none
    servos := fun n => if n = 0 then some 3 else none
    allocatedOutputPortCount := 4
    pwmMotorsEnabled := true }

/-- The completed oneshot update on the demo state (three configured
motors), used to instantiate theorems at a concrete execution. -/
def demoOneshot3 : PwmState × List PwmEvent :=
  (pwmCompleteOneshotMotorUpdate demoState 3).getD (initState, [])

/-- Demo channel descriptor used by concrete instantiations. -/
def demoTh : TimerHardware :=
  { tim := 5, channel := 1, outputEnable := true, handleResolves := true }

/-- Failing-handle variant of the demo channel descriptor. -/
def demoThBad : TimerHardware :=
  { tim := 5, channel := 1, outputEnable := true, handleResolves := false }

-- Sanity checks of the embedding on concrete values.
example : pwmWriteMotor 12 (pwmDisableMotors initState) 0 1500 =
    some (pwmDisableMotors initState) := rfl
example : isMotorBrushed 501 = true := rfl
example : brushedTransform 1500 2000 = 1000 := by decide
example : brushedTransform 0 2000 = 2 ^ 32 - 2000 := by decide
example : dedupScan none [some 1, some 1, some 2] = [some 1, some 2] := by decide
example : groupedTims [some 1, some 2, some 1] = false := by decide
example : groupedTims [some 1, some 1, some 2] = true := by decide

/-- In the standard domain (`value ≥ 1000`, product below the register
modulus) the brushed transform is plain natural truncating division. -/
theorem brushedTransform_eq (v P : Nat) (h1 : 1000 ≤ v)
    (h2 : (v - 1000) * P < 2 ^ 32) :
    brushedTransform v P = (v - 1000) * P / 1000 := by
  unfold brushedTransform toCCR timCCRWidth
  have hcast : ((v : Int) - 1000) = (((v - 1000 : Nat)) : Int) := by omega
  rw [hcast, ← Int.natCast_mul]
  have h3 : (((v - 1000) * P : Nat) : Int).tdiv (1000 : Int) =
      (((v - 1000) * P / 1000 : Nat) : Int) := by
    rw [Int.ofNat_tdiv]
    norm_num
  rw [h3]
  have h32 : ((2 : Int) ^ 32) = 4294967296 := by norm_num
  rw [h32]
  have h2' : (v - 1000) * P < 4294967296 := by omega
  omega

/-- Below the 1000 floor the brushed transform computes a non-positive
truncated quotient and reduces it modulo the register width. -/
theorem brushedTransform_lt (v P : Nat) (hv : v < 1000) (hP : P < 65536) :
    brushedTransform v P = (2 ^ 32 - (1000 - v) * P / 1000) % 2 ^ 32 := by
  unfold brushedTransform toCCR timCCRWidth
  have hcast : ((v : Int) - 1000) = -(((1000 - v : Nat)) : Int) := by omega
  rw [hcast, neg_mul, ← Int.natCast_mul, Int.neg_tdiv]
  have h3 : (((1000 - v) * P : Nat) : Int).tdiv (1000 : Int) =
      (((1000 - v) * P / 1000 : Nat) : Int) := by
    rw [Int.ofNat_tdiv]
    norm_num
  rw [h3]
  have hq : (1000 - v) * P / 1000 ≤ 65535 := by
    have hmul : (1000 - v) * P ≤ 1000 * 65535 :=
      Nat.mul_le_mul (by omega) (by omega)
    have := Nat.div_le_div_right (c := 1000) hmul
    omega
  have h32 : ((2 : Int) ^ 32) = 4294967296 := by norm_num
  have h32n : ((2 : Nat) ^ 32) = 4294967296 := by norm_num
  rw [h32, h32n]
  omega

/-- C10: `isMotorBrushed` is a pure predicate on its rate argument,
true exactly when the rate exceeds 500; in particular it is false at
500 and true at 501. -/
theorem isMotorBrushed_spec :
    (∀ rate : Nat, isMotorBrushed rate = true ↔ 500 < rate) ∧
    isMotorBrushed 500 = false ∧ isMotorBrushed 501 = true := by
  refine ⟨fun rate => ?_, rfl, rfl⟩
  simp [isMotorBrushed]

/-- C5: a motor or servo write at an unconfigured slot, or at an index
at or beyond the configured capacity, returns the state unchanged: no
register write, no registry, dispatch-table or gate change. -/
theorem pwmWrite_out_of_range_noop (M MS : Nat) (s : PwmState) (i v : Nat) :
    (s.motors i = none ∨ M ≤ i → pwmWriteMotor M s i v = some s) ∧
    (s.servos i = none ∨ MS ≤ i → pwmWriteServo MS s i v = some s) := by
  constructor
  · rintro (h | h)
    · simp [pwmWriteMotor, h]
    · unfold pwmWriteMotor
      cases hm : s.motors i with
      | none => rfl
      | some pIdx =>
        have : decide (i < M) = false := by simp; omega
        simp [this]
  · rintro (h | h)
    · simp [pwmWriteServo, h]
    · unfold pwmWriteServo
      cases hm : s.servos i with
      | none => rfl
      | some pIdx =>
        have : decide (i < MS) = false := by simp; omega
        simp [this]

/-- Witness for C5 at a concrete state and an out-of-range index. -/
theorem pwmWrite_out_of_range_noop_witness :
    pwmWriteMotor 12 demoState 50 1500 = some demoState ∧
    pwmWriteServo 8 demoState 50 1500 = some demoState := by
  have h := pwmWrite_out_of_range_noop 12 8 demoState 50 1500
  exact ⟨h.1 (Or.inl rfl), h.2 (Or.inl rfl)⟩

/-- C3: a brushed-strategy motor write in the command domain
[1000, 2000] stores `(v - 1000) * period / 1000` (truncating natural
division) into the port's compare register, and the stored value is
monotonically non-decreasing over that domain. -/
theorem pwmWriteMotor_brushed_value_monotone (M : Nat) (s : PwmState)
    (i pIdx v c : Nat)
    (hm : s.motors i = some pIdx)
    (hk : (s.pwmOutputPorts pIdx).pwmWritePtr = some PwmWriteKind.brushed)
    (hc : (s.pwmOutputPorts pIdx).ccr = some c)
    (hi : i < M) (hg : s.pwmMotorsEnabled = true)
    (hP : (s.pwmOutputPorts pIdx).period < 65536)
    (hv1 : 1000 ≤ v) (hv2 : v ≤ 2000) :
    (∃ s', pwmWriteMotor M s i v = some s' ∧
      (s'.pwmOutputPorts pIdx).ccr =
        some ((v - 1000) * (s.pwmOutputPorts pIdx).period / 1000)) ∧
    (∀ v1 v2, 1000 ≤ v1 → v1 ≤ v2 → v2 ≤ 2000 →
      brushedTransform v1 (s.pwmOutputPorts pIdx).period ≤
        brushedTransform v2 (s.pwmOutputPorts pIdx).period) := by
  have hPle : (s.pwmOutputPorts pIdx).period ≤ 65535 := by omega
  have hbound : ∀ w : Nat, w ≤ 2000 →
      (w - 1000) * (s.pwmOutputPorts pIdx).period < 2 ^ 32 := by
    intro w hw
    have h1 : w - 1000 ≤ 1000 := by omega
    have := Nat.mul_le_mul h1 hPle
    omega
  constructor
  · refine ⟨setCcr s pIdx (brushedTransform v (s.pwmOutputPorts pIdx).period),
      ?_, ?_⟩
    · simp [pwmWriteMotor, hm, hk, hi, hg, pwmWriteBrushed, hc]
    · have hcc : ∀ t : Nat, ((setCcr s pIdx t).pwmOutputPorts pIdx).ccr = some t := by
        intro t
        simp [setCcr]
      rw [hcc, brushedTransform_eq v _ hv1 (hbound v hv2)]
  · intro v1 v2 h1 h2 h3
    rw [brushedTransform_eq v1 _ h1 (hbound v1 (le_trans h2 h3)),
      brushedTransform_eq v2 _ (le_trans h1 h2) (hbound v2 h3)]
    exact Nat.div_le_div_right (Nat.mul_le_mul (by omega) (le_refl _))

/-- Witness for C3 at a concrete brushed motor and value. -/
theorem pwmWriteMotor_brushed_value_monotone_witness :
    (∃ s', pwmWriteMotor 12 demoState 0 1600 = some s' ∧
      (s'.pwmOutputPorts 0).ccr =
        some ((1600 - 1000) * (demoState.pwmOutputPorts 0).period / 1000)) ∧
    brushedTransform 1200 (demoState.pwmOutputPorts 0).period ≤
      brushedTransform 1600 (demoState.pwmOutputPorts 0).period := by
  have h := pwmWriteMotor_brushed_value_monotone 12 demoState 0 0 1600 1500
    rfl rfl rfl (by decide) rfl (by decide) (by decide) (by decide)
  exact ⟨h.1, h.2 1200 1600 (by decide) (by decide) (by decide)⟩

theorem setCcr_motors (s : PwmState) (p v : Nat) :
    (setCcr s p v).motors = s.motors := rfl

theorem setCcr_ccr (s : PwmState) (p v q : Nat) :
    ((setCcr s p v).pwmOutputPorts q).ccr =
      if q = p then some v else (s.pwmOutputPorts q).ccr := by
  by_cases h : q = p <;> simp [setCcr, h]

theorem setCcr_ports_ne (s : PwmState) (p v q : Nat) (h : q ≠ p) :
    (setCcr s p v).pwmOutputPorts q = s.pwmOutputPorts q := by
  simp [setCcr, h]

theorem motorCcrBound_setCcr (s : PwmState) (p v i : Nat)
    (h : motorCcrBound s i = true) : motorCcrBound (setCcr s p v) i = true := by
  unfold motorCcrBound at h ⊢
  rw [setCcr_motors]
  cases hm : s.motors i with
  | none => rw [hm] at h; simp at h
  | some p' =>
    rw [hm] at h
    have h' : (s.pwmOutputPorts p').ccr.isSome = true := h
    show ((setCcr s p v).pwmOutputPorts p').ccr.isSome = true
    rw [setCcr_ccr]
    by_cases hqp : p' = p <;> simp [hqp, h']

/-- Behaviour of the shutdown zeroing loop: it completes whenever every
listed motor slot and its register are bound, it touches nothing but
the targeted ports' compare registers, and it leaves those registers
at 0. -/
theorem pwmShutdownLoop_spec (idxs : List Nat) (s : PwmState)
    (h : ∀ i ∈ idxs, motorCcrBound s i = true) :
    ∃ s', pwmShutdownLoop s idxs = some s' ∧
      s'.motors = s.motors ∧ s'.servos = s.servos ∧
      s'.allocatedOutputPortCount = s.allocatedOutputPortCount ∧
      s'.pwmMotorsEnabled = s.pwmMotorsEnabled ∧
      (∀ i ∈ idxs, ∀ pIdx, s.motors i = some pIdx →
        (s'.pwmOutputPorts pIdx).ccr = some 0) ∧
      (∀ pIdx, (∀ i ∈ idxs, s.motors i ≠ some pIdx) →
        s'.pwmOutputPorts pIdx = s.pwmOutputPorts pIdx) := by
  induction idxs generalizing s with
  | nil =>
    exact ⟨s, rfl, rfl, rfl, rfl, rfl, by simp, fun _ _ => rfl⟩
  | cons a rest ih =>
    have ha := h a (by simp)
    unfold motorCcrBound at ha
    cases hm : s.motors a with
    | none => rw [hm] at ha; simp at ha
    | some pIdx =>
      rw [hm] at ha
      have ha' : (s.pwmOutputPorts pIdx).ccr.isSome = true := ha
      cases hc : (s.pwmOutputPorts pIdx).ccr with
      | none => rw [hc] at ha'; simp at ha'
      | some cv =>
        have hrest : ∀ i ∈ rest, motorCcrBound (setCcr s pIdx 0) i = true :=
          fun i hi => motorCcrBound_setCcr s pIdx 0 i (h i (by simp [hi]))
        obtain ⟨s', hrun, hmot, hserv, hcnt, hen, hzero, hut⟩ :=
          ih (setCcr s pIdx 0) hrest
        refine ⟨s', ?_, ?_, ?_, ?_, ?_, ?_, ?_⟩
        · simp only [pwmShutdownLoop, hm, hc]
          exact hrun
        · exact hmot
        · exact hserv
        · exact hcnt
        · exact hen
        · intro i hi p hp
          rcases List.mem_cons.mp hi with hia | hir
          · subst hia
            rw [hm] at hp
            injection hp with hp
            subst hp
            by_cases hlater : ∃ j ∈ rest, s.motors j = some pIdx
            · obtain ⟨j, hj, hmj⟩ := hlater
              exact hzero j hj pIdx hmj
            · push_neg at hlater
              rw [hut pIdx (fun j hj => hlater j hj)]
              rw [setCcr_ccr]
              simp
          · exact hzero i hir p hp
        · intro p hp
          have hne : pIdx ≠ p := fun he => hp a (by simp) (by rw [hm, he])
          rw [hut p (fun j hj => hp j (by simp [hj]))]
          exact setCcr_ports_ne s pIdx 0 p (fun he => hne he.symm)

/-- C7: `pwmShutdownPulsesForAllMotors(count)` on a state whose first
`count` motor slots are configured zeroes those motors' compare
registers, for either value of the enable gate, leaving the gate as it
was. -/
theorem pwmShutdown_zeroes_any_gate (s : PwmState) (count : Nat) (b : Bool)
    (h : ∀ i, i < count → motorCcrBound s i = true) :
    ∃ s', pwmShutdownPulsesForAllMotors
        { s with pwmMotorsEnabled := b } count = some s' ∧
      (∀ i pIdx, i < count → s.motors i = some pIdx →
        (s'.pwmOutputPorts pIdx).ccr = some 0) ∧
      s'.pwmMotorsEnabled = b := by
  have h' : ∀ i ∈ List.range count,
      motorCcrBound { s with pwmMotorsEnabled := b } i = true := by
    intro i hi
    exact h i (List.mem_range.mp hi)
  obtain ⟨s', hrun, _, _, _, hen, hzero, _⟩ :=
    pwmShutdownLoop_spec (List.range count) _ h'
  exact ⟨s', hrun,
    fun i pIdx hi hm => hzero i (List.mem_range.mpr hi) pIdx hm, hen⟩

/-- Witness for C7 on a concrete configured state with the gate off. -/
theorem pwmShutdown_zeroes_any_gate_witness :
    ∃ s', pwmShutdownPulsesForAllMotors
        { demoState with pwmMotorsEnabled := false } 3 = some s' ∧
      (∀ i pIdx, i < 3 → demoState.motors i = some pIdx →
        (s'.pwmOutputPorts pIdx).ccr = some 0) ∧
      s'.pwmMotorsEnabled = false :=
  pwmShutdown_zeroes_any_gate demoState 3 false (by decide)

/-- C4: with the gate cleared every motor write is the identity on the
state; re-enabling restores the strategy-transformed store; servo
writes store the raw value for either gate state. -/
theorem pwm_gate_spec (M MS : Nat) (s : PwmState) :
    (∀ i v, pwmWriteMotor M (pwmDisableMotors s) i v =
      some (pwmDisableMotors s)) ∧
    (∀ i v pIdx k c, s.motors i = some pIdx → i < M →
      (s.pwmOutputPorts pIdx).pwmWritePtr = some k →
      (s.pwmOutputPorts pIdx).ccr = some c →
      ∃ s', pwmWriteMotor M (pwmEnableMotors (pwmDisableMotors s)) i v =
          some s' ∧
        (s'.pwmOutputPorts pIdx).ccr =
          some (writeTransform k v (s.pwmOutputPorts pIdx).period)) ∧
    (∀ b j v q c, s.servos j = some q → j < MS →
      (s.pwmOutputPorts q).ccr = some c →
      ∃ s', pwmWriteServo MS { s with pwmMotorsEnabled := b } j v = some s' ∧
        (s'.pwmOutputPorts q).ccr = some v) := by
  refine ⟨fun i v => ?_, fun i v pIdx k c hm hi hk hc => ?_,
    fun b j v q c hs hj hc => ?_⟩
  · cases hm : s.motors i with
    | none => simp [pwmWriteMotor, pwmDisableMotors, hm]
    | some pIdx => simp [pwmWriteMotor, pwmDisableMotors, hm]
  · cases k with
    | brushed =>
      refine ⟨setCcr { s with pwmMotorsEnabled := true } pIdx
        (brushedTransform v (s.pwmOutputPorts pIdx).period), ?_, ?_⟩
      · simp [pwmWriteMotor, pwmEnableMotors, pwmDisableMotors, hm, hi, hk,
          pwmWriteBrushed, hc]
      · rw [setCcr_ccr]
        simp [writeTransform]
    | standard =>
      refine ⟨setCcr { s with pwmMotorsEnabled := true } pIdx v, ?_, ?_⟩
      · simp [pwmWriteMotor, pwmEnableMotors, pwmDisableMotors, hm, hi, hk,
          pwmWriteStandard, hc]
      · rw [setCcr_ccr]
        simp [writeTransform]
  · refine ⟨setCcr { s with pwmMotorsEnabled := b } q v, ?_, ?_⟩
    · simp [pwmWriteServo, hs, hj, hc]
    · rw [setCcr_ccr]
      simp

/-- Witness for C4 at the concrete demo state. -/
theorem pwm_gate_spec_witness :
    pwmWriteMotor 12 (pwmDisableMotors demoState) 0 1500 =
      some (pwmDisableMotors demoState) ∧
    (∃ s', pwmWriteMotor 12 (pwmEnableMotors (pwmDisableMotors demoState))
        1 1700 = some s' ∧
      (s'.pwmOutputPorts 1).ccr =
        some (writeTransform PwmWriteKind.standard 1700
          (demoState.pwmOutputPorts 1).period)) ∧
    (∃ s', pwmWriteServo 8 { demoState with pwmMotorsEnabled := false }
        0 1600 = some s' ∧
      (s'.pwmOutputPorts 3).ccr = some 1600) := by
  have h := pwm_gate_spec 12 8 demoState
  exact ⟨h.1 0 1500,
    h.2.1 1 1700 1 PwmWriteKind.standard 1480 rfl (by decide) rfl rfl,
    h.2.2 false 0 1600 3 1500 rfl (by decide) rfl⟩

/-- C6 counterexample: `pwmShutdownPulsesForAllMotors` has no range
check and dereferences `motors[0]` (`NULL` in the initial state), so a
shutdown with a count beyond the configured motors is not a guarded
bounded access — it crashes rather than succeeding. -/
theorem pwmShutdown_unconfigured_counterexample :
    pwmShutdownPulsesForAllMotors initState 1 = none := rfl

/-- C6 amended: the write operations succeed for every index and value
provided every bound slot they may reach is fully initialized, and the
shutdown succeeds when slots `0..count-1` are configured; the original
claim's "every count argument" fails because the shutdown loop has no
range or `NULL` guard. -/
theorem pwm_per_tick_ops_succeed (M MS count : Nat) (s : PwmState) :
    (∀ i v, (∀ pIdx, s.motors i = some pIdx →
        (s.pwmOutputPorts pIdx).ccr.isSome = true ∧
        (s.pwmOutputPorts pIdx).pwmWritePtr.isSome = true) →
      ∃ s', pwmWriteMotor M s i v = some s') ∧
    (∀ i v, (∀ pIdx, s.servos i = some pIdx →
        (s.pwmOutputPorts pIdx).ccr.isSome = true) →
      ∃ s', pwmWriteServo MS s i v = some s') ∧
    ((∀ i, i < count → motorCcrBound s i = true) →
      ∃ s', pwmShutdownPulsesForAllMotors s count = some s') := by
  refine ⟨fun i v hcfg => ?_, fun i v hcfg => ?_, fun hcfg => ?_⟩
  · cases hm : s.motors i with
    | none => exact ⟨s, by simp [pwmWriteMotor, hm]⟩
    | some pIdx =>
      obtain ⟨hccr, hptr⟩ := hcfg pIdx hm
      rw [Option.isSome_iff_exists] at hccr hptr
      obtain ⟨cv, hcv⟩ := hccr
      obtain ⟨k, hk⟩ := hptr
      by_cases hgate : (decide (i < M) && s.pwmMotorsEnabled) = true
      · cases k with
        | brushed =>
          refine ⟨setCcr s pIdx
            (brushedTransform v (s.pwmOutputPorts pIdx).period), ?_⟩
          simp [pwmWriteMotor, hm, hgate, hk, pwmWriteBrushed, hcv]
        | standard =>
          refine ⟨setCcr s pIdx v, ?_⟩
          simp [pwmWriteMotor, hm, hgate, hk, pwmWriteStandard, hcv]
      · refine ⟨s, ?_⟩
        simp only [pwmWriteMotor, hm]
        rw [if_neg hgate]
  · cases hs : s.servos i with
    | none => exact ⟨s, by simp [pwmWriteServo, hs]⟩
    | some pIdx =>
      have hccr := hcfg pIdx hs
      rw [Option.isSome_iff_exists] at hccr
      obtain ⟨cv, hcv⟩ := hccr
      by_cases hj : i < MS
      · exact ⟨setCcr s pIdx v, by simp [pwmWriteServo, hs, hj, hcv]⟩
      · refine ⟨s, ?_⟩
        simp [pwmWriteServo, hs, hj]
  · obtain ⟨s', hrun, _⟩ := pwmShutdownLoop_spec (List.range count) s
      (fun i hi => hcfg i (List.mem_range.mp hi))
    exact ⟨s', hrun⟩

/-- Witness for the amended C6 at the concrete demo state. -/
theorem pwm_per_tick_ops_succeed_witness :
    (∃ s', pwmWriteMotor 12 demoState 0 1500 = some s') ∧
    (∃ s', pwmWriteServo 8 demoState 0 1600 = some s') ∧
    (∃ s', pwmShutdownPulsesForAllMotors demoState 3 = some s') := by
  have h := pwm_per_tick_ops_succeed 12 8 3 demoState
  refine ⟨h.1 0 1500 ?_, h.2.1 0 1600 ?_, h.2.2 (by decide)⟩
  · intro pIdx hp
    have h0 : (some 0 : Option Nat) = some pIdx := hp
    injection h0 with h0
    subst h0
    exact ⟨rfl, rfl⟩
  · intro pIdx hp
    have h0 : (some 3 : Option Nat) = some pIdx := hp
    injection h0 with h0
    subst h0
    exact rfl

/-- C9 counterexample: at a brushed motor with period 250 and command
999 the truncated quotient `(999 - 1000) * 250 / 1000` is zero, so the
register reads 0 — a minimal pulse, not a large wrapped value. -/
theorem pwmWriteBrushed_underflow_counterexample :
    (demoState.pwmOutputPorts 2).pwmWritePtr = some PwmWriteKind.brushed ∧
    demoState.pwmMotorsEnabled = true ∧
    demoState.motors 2 = some 2 ∧
    (demoState.pwmOutputPorts 2).period = 250 ∧
    (pwmWriteMotor 12 demoState 2 999).map
      (fun s' => (s'.pwmOutputPorts 2).ccr) = some (some 0) := by
  refine ⟨rfl, rfl, rfl, rfl, ?_⟩
  decide

/-- C9 amended: for a brushed motor with the gate set and `v < 1000`,
whenever the scaled magnitude reaches one division unit
(`1000 ≤ (1000 - v) * period`) the signed quotient is negative and the
register receives its value modulo `2 ^ 32`: a wrapped value of at
least `2 ^ 32 - 65535`, far above any standard pulse; when the
magnitude is below one unit the quotient truncates to zero and the
register reads 0. -/
theorem pwmWriteMotor_brushed_underflow (M : Nat) (s : PwmState)
    (i pIdx v c : Nat)
    (hm : s.motors i = some pIdx)
    (hk : (s.pwmOutputPorts pIdx).pwmWritePtr = some PwmWriteKind.brushed)
    (hc : (s.pwmOutputPorts pIdx).ccr = some c)
    (hi : i < M) (hg : s.pwmMotorsEnabled = true)
    (hP : (s.pwmOutputPorts pIdx).period < 65536)
    (hv : v < 1000)
    (hbig : 1000 ≤ (1000 - v) * (s.pwmOutputPorts pIdx).period) :
    ∃ s', pwmWriteMotor M s i v = some s' ∧
      (s'.pwmOutputPorts pIdx).ccr =
        some (2 ^ 32 - (1000 - v) * (s.pwmOutputPorts pIdx).period / 1000) ∧
      2 ^ 32 - 65535 ≤
        2 ^ 32 - (1000 - v) * (s.pwmOutputPorts pIdx).period / 1000 ∧
      2000 < 2 ^ 32 - (1000 - v) * (s.pwmOutputPorts pIdx).period / 1000 := by
  have hq : (1000 - v) * (s.pwmOutputPorts pIdx).period / 1000 ≤ 65535 := by
    have hmul : (1000 - v) * (s.pwmOutputPorts pIdx).period ≤ 1000 * 65535 :=
      Nat.mul_le_mul (by omega) (by omega)
    have := Nat.div_le_div_right (c := 1000) hmul
    omega
  have hq1 : 1 ≤ (1000 - v) * (s.pwmOutputPorts pIdx).period / 1000 :=
    Nat.one_le_div_iff (by omega) |>.mpr hbig
  refine ⟨setCcr s pIdx
    (brushedTransform v (s.pwmOutputPorts pIdx).period), ?_, ?_, ?_, ?_⟩
  · simp [pwmWriteMotor, hm, hk, hi, hg, pwmWriteBrushed, hc]
  · have hcc : ∀ t : Nat,
        ((setCcr s pIdx t).pwmOutputPorts pIdx).ccr = some t := by
      intro t
      simp [setCcr]
    rw [hcc, brushedTransform_lt v _ hv hP]
    have h32 : (2 : Nat) ^ 32 = 4294967296 := by norm_num
    rw [h32]
    simp only [Option.some.injEq]
    omega
  · omega
  · have h32 : (2 : Nat) ^ 32 = 4294967296 := by norm_num
    omega

/-- Witness for the amended C9: motor 0 (period 2000), command 500. -/
theorem pwmWriteMotor_brushed_underflow_witness :
    ∃ s', pwmWriteMotor 12 demoState 0 500 = some s' ∧
      (s'.pwmOutputPorts 0).ccr =
        some (2 ^ 32 - (1000 - 500) * (demoState.pwmOutputPorts 0).period / 1000) ∧
      2 ^ 32 - 65535 ≤
        2 ^ 32 - (1000 - 500) * (demoState.pwmOutputPorts 0).period / 1000 ∧
      2000 < 2 ^ 32 - (1000 - 500) * (demoState.pwmOutputPorts 0).period / 1000 :=
  pwmWriteMotor_brushed_underflow 12 demoState 0 0 500 1500
    rfl rfl rfl (by decide) rfl (by decide) (by decide) (by decide)

theorem oneshotOverflowLoop_events (idxs : List Nat) :
    ∀ (s : PwmState) (last : Option Nat) (evs : List PwmEvent),
      oneshotOverflowLoop s idxs last = some evs →
      ∀ e ∈ evs, ∃ t, e = PwmEvent.forceOverflow t := by
  induction idxs with
  | nil =>
    intro s last evs h e he
    injection h with h
    subst h
    simp at he
  | cons a rest ih =>
    intro s last evs h e he
    cases hm : s.motors a with
    | none => simp [oneshotOverflowLoop, hm] at h
    | some pIdx =>
      simp only [oneshotOverflowLoop, hm] at h
      by_cases ht : (s.pwmOutputPorts pIdx).tim ≠ last
      · rw [if_pos ht, Option.map_eq_some'] at h
        obtain ⟨evs0, h0, hcons⟩ := h
        subst hcons
        rcases List.mem_cons.mp he with h1 | h1
        · exact ⟨(s.pwmOutputPorts pIdx).tim, h1⟩
        · exact ih s _ evs0 h0 e h1
      · rw [if_neg ht] at h
        exact ih s last evs h e he

theorem oneshotZeroLoop_events (idxs : List Nat) :
    ∀ (s : PwmState) (r : PwmState × List PwmEvent),
      oneshotZeroLoop s idxs = some r →
      ∀ e ∈ r.2, ∃ p, e = PwmEvent.ccrWrite p 0 := by
  induction idxs with
  | nil =>
    intro s r h e he
    injection h with h
    subst h
    simp at he
  | cons a rest ih =>
    intro s r h e he
    cases hm : s.motors a with
    | none => simp [oneshotZeroLoop, hm] at h
    | some pIdx =>
      cases hc : (s.pwmOutputPorts pIdx).ccr with
      | none => simp [oneshotZeroLoop, hm, hc] at h
      | some cv =>
        simp only [oneshotZeroLoop, hm, hc] at h
        rw [Option.map_eq_some'] at h
        obtain ⟨r0, h0, hr⟩ := h
        subst hr
        rcases List.mem_cons.mp he with h1 | h1
        · exact ⟨pIdx, h1⟩
        · exact ih _ r0 h0 e h1

/-- C2: whenever `pwmCompleteOneshotMotorUpdate` completes, its event
trace splits as a block of force-overflow calls followed by a block of
compare-register zeroings: every overflow precedes every zeroing. -/
theorem pwmOneshot_overflows_before_zeroing (s : PwmState) (N : Nat)
    (r : PwmState × List PwmEvent)
    (h : pwmCompleteOneshotMotorUpdate s N = some r) :
    ∃ ev1 ev2, r.2 = ev1 ++ ev2 ∧
      (∀ e ∈ ev1, ∃ t, e = PwmEvent.forceOverflow t) ∧
      (∀ e ∈ ev2, ∃ p, e = PwmEvent.ccrWrite p 0) := by
  unfold pwmCompleteOneshotMotorUpdate at h
  cases h1 : oneshotOverflowLoop s (List.range N) none with
  | none => rw [h1] at h; exact Option.noConfusion h
  | some ev1 =>
    rw [h1] at h
    cases h2 : oneshotZeroLoop s (List.range N) with
    | none => rw [h2] at h; exact Option.noConfusion h
    | some r2 =>
      rw [h2] at h
      obtain ⟨s2, ev2⟩ := r2
      have hr : r = (s2, ev1 ++ ev2) := by
        have h' : some (s2, ev1 ++ ev2) = some r := h
        injection h' with h'
        exact h'.symm
      subst hr
      refine ⟨ev1, ev2, rfl, ?_, ?_⟩
      · exact fun e he =>
          oneshotOverflowLoop_events (List.range N) s none ev1 h1 e he
      · exact fun e he =>
          oneshotZeroLoop_events (List.range N) s (s2, ev2) h2 e he

/-- Witness for C2 on a concrete completed execution. -/
theorem pwmOneshot_overflows_before_zeroing_witness :
    ∃ ev1 ev2, demoOneshot3.2 = ev1 ++ ev2 ∧
      (∀ e ∈ ev1, ∃ t, e = PwmEvent.forceOverflow t) ∧
      (∀ e ∈ ev2, ∃ p, e = PwmEvent.ccrWrite p 0) :=
  pwmOneshot_overflows_before_zeroing demoState 3 demoOneshot3 rfl

theorem groupedTims_cons (a : Option Nat) (rest : List (Option Nat))
    (h : groupedTims (a :: rest) = true) :
    groupedTims rest = true ∧ (a ∈ rest → rest.head? = some a) := by
  simp only [groupedTims, Bool.and_eq_true, Bool.or_eq_true,
    Bool.not_eq_true', decide_eq_true_eq, decide_eq_false_iff_not] at h
  obtain ⟨h1, h2⟩ := h
  refine ⟨h1, fun hm => ?_⟩
  rcases h2 with h2 | h2
  · exact absurd hm h2
  · exact h2

theorem dedupScan_subset :
    ∀ (l : List (Option Nat)) (last t : Option Nat),
      t ∈ dedupScan last l → t ∈ l := by
  intro l
  induction l with
  | nil => intro last t h; simp [dedupScan] at h
  | cons a rest ih =>
    intro last t h
    by_cases ha : a ≠ last
    · rw [dedupScan, if_pos ha] at h
      rcases List.mem_cons.mp h with h1 | h1
      · simp [h1]
      · exact List.mem_cons_of_mem a (ih a t h1)
    · rw [dedupScan, if_neg ha] at h
      exact List.mem_cons_of_mem a (ih last t h)

theorem mem_dedupScan :
    ∀ (l : List (Option Nat)) (last t : Option Nat),
      t ∈ l → t ≠ last → t ∈ dedupScan last l := by
  intro l
  induction l with
  | nil => intro last t h _; simp at h
  | cons a rest ih =>
    intro last t htl htn
    by_cases ha : a ≠ last
    · rw [dedupScan, if_pos ha]
      rcases List.mem_cons.mp htl with h1 | h1
      · simp [h1]
      · by_cases hta : t = a
        · simp [hta]
        · exact List.mem_cons_of_mem a (ih a t h1 hta)
    · rw [dedupScan, if_neg ha]
      push_neg at ha
      rcases List.mem_cons.mp htl with h1 | h1
      · exact absurd (h1.trans ha) htn
      · exact ih last t h1 htn

theorem not_mem_dedupScan_self :
    ∀ (ts : List (Option Nat)) (t : Option Nat),
      groupedTims ts = true → (t ∈ ts → ts.head? = some t) →
      t ∉ dedupScan t ts := by
  intro ts
  induction ts with
  | nil => intro t _ _ h; simp [dedupScan] at h
  | cons a ts' ih =>
    intro t hg hh hmem
    by_cases hat : a = t
    · subst hat
      rw [dedupScan, if_neg (by simp)] at hmem
      have hg' := groupedTims_cons a ts' hg
      exact ih a hg'.1 hg'.2 hmem
    · rw [dedupScan, if_pos (fun he => hat he)] at hmem
      rcases List.mem_cons.mp hmem with h1 | h1
      · exact hat h1.symm
      · have htts : t ∈ ts' := dedupScan_subset ts' a t h1
        have hhead := hh (List.mem_cons_of_mem a htts)
        simp at hhead
        exact hat hhead

theorem dedupScan_nodup :
    ∀ (l : List (Option Nat)), groupedTims l = true →
      ∀ last, (dedupScan last l).Nodup := by
  intro l
  induction l with
  | nil => intro _ last; simp [dedupScan]
  | cons a rest ih =>
    intro hg last
    have hg' := groupedTims_cons a rest hg
    by_cases ha : a ≠ last
    · rw [dedupScan, if_pos ha]
      exact List.nodup_cons.mpr
        ⟨not_mem_dedupScan_self rest a hg'.1 hg'.2, ih hg'.1 a⟩
    · rw [dedupScan, if_neg ha]
      exact ih hg'.1 last

theorem count_eq_one_of_nodup_mem {α : Type} [BEq α] [LawfulBEq α]
    {l : List α} {a : α} (hnd : l.Nodup) (hm : a ∈ l) : l.count a = 1 := by
  induction l with
  | nil => simp at hm
  | cons b l' ih =>
    rw [List.nodup_cons] at hnd
    by_cases hab : a = b
    · subst hab
      rw [List.count_cons_self, List.count_eq_zero.mpr hnd.1]
    · have h1 : a ∈ l' := by
        rcases List.mem_cons.mp hm with h2 | h2
        · exact absurd h2 hab
        · exact h2
      rw [List.count_cons_of_ne hab]
      exact ih hnd.2 h1

theorem count_map_forceOverflow (l : List (Option Nat)) (x : Option Nat) :
    (l.map PwmEvent.forceOverflow).count (PwmEvent.forceOverflow x) =
      l.count x := by
  induction l with
  | nil => rfl
  | cons a rest ih =>
    by_cases hax : x = a
    · subst hax
      simp [List.count_cons, ih]
    · simp [List.count_cons, ih, hax]

theorem count_overflow_zero_of_ccrWrites (ev2 : List PwmEvent)
    (h : ∀ e ∈ ev2, ∃ p, e = PwmEvent.ccrWrite p 0) (x : Option Nat) :
    ev2.count (PwmEvent.forceOverflow x) = 0 := by
  rw [List.count_eq_zero]
  intro hmem
  obtain ⟨p, hp⟩ := h _ hmem
  exact PwmEvent.noConfusion hp

/-- The overflow pass is the `dedupScan` of the per-index timer list,
mapped to force-overflow events, whenever all listed slots are bound. -/
theorem oneshotOverflowLoop_eq_dedup (idxs : List Nat) :
    ∀ (s : PwmState) (last : Option Nat),
      (∀ i ∈ idxs, (s.motors i).isSome = true) →
      oneshotOverflowLoop s idxs last =
        some ((dedupScan last (idxs.map (motorTim s))).map
          PwmEvent.forceOverflow) := by
  induction idxs with
  | nil => intro s last _; rfl
  | cons a rest ih =>
    intro s last h
    have ha := h a (by simp)
    rw [Option.isSome_iff_exists] at ha
    obtain ⟨pIdx, hm⟩ := ha
    have htim : motorTim s a = (s.pwmOutputPorts pIdx).tim := by
      unfold motorTim
      rw [hm]
    simp only [oneshotOverflowLoop, hm, List.map_cons]
    by_cases ht : (s.pwmOutputPorts pIdx).tim ≠ last
    · rw [if_pos ht, ih s _ (fun i hi => h i (by simp [hi]))]
      rw [dedupScan, if_pos (htim ▸ ht), htim]
      rfl
    · rw [if_neg ht, ih s last (fun i hi => h i (by simp [hi]))]
      rw [dedupScan, if_neg (htim ▸ ht)]

/-- The zeroing pass completes on bound slots, leaves the motor table
and cursor alone, zeroes targeted registers and touches no other
port. -/
theorem oneshotZeroLoop_spec (idxs : List Nat) :
    ∀ (s : PwmState), (∀ i ∈ idxs, motorCcrBound s i = true) →
    ∃ r, oneshotZeroLoop s idxs = some r ∧
      r.1.motors = s.motors ∧
      (∀ i ∈ idxs, ∀ pIdx, s.motors i = some pIdx →
        (r.1.pwmOutputPorts pIdx).ccr = some 0) ∧
      (∀ pIdx, (∀ i ∈ idxs, s.motors i ≠ some pIdx) →
        r.1.pwmOutputPorts pIdx = s.pwmOutputPorts pIdx) ∧
      r.1.allocatedOutputPortCount = s.allocatedOutputPortCount := by
  induction idxs with
  | nil =>
    intro s _
    exact ⟨(s, []), rfl, rfl, by simp, fun _ _ => rfl, rfl⟩
  | cons a rest ih =>
    intro s h
    have ha := h a (by simp)
    unfold motorCcrBound at ha
    cases hm : s.motors a with
    | none => rw [hm] at ha; simp at ha
    | some pIdx =>
      rw [hm] at ha
      have ha' : (s.pwmOutputPorts pIdx).ccr.isSome = true := ha
      cases hc : (s.pwmOutputPorts pIdx).ccr with
      | none => rw [hc] at ha'; simp at ha'
      | some cv =>
        have hrest : ∀ i ∈ rest, motorCcrBound (setCcr s pIdx 0) i = true :=
          fun i hi => motorCcrBound_setCcr s pIdx 0 i (h i (by simp [hi]))
        obtain ⟨r0, hrun, hmot, hzero, hut, hcnt⟩ := ih (setCcr s pIdx 0) hrest
        refine ⟨(r0.1, PwmEvent.ccrWrite pIdx 0 :: r0.2), ?_, ?_, ?_, ?_, ?_⟩
        · simp only [oneshotZeroLoop, hm, hc, hrun, Option.map_some']
        · exact hmot
        · intro i hi p hp
          rcases List.mem_cons.mp hi with hia | hir
          · subst hia
            rw [hm] at hp
            injection hp with hp
            subst hp
            by_cases hlater : ∃ j ∈ rest, s.motors j = some pIdx
            · obtain ⟨j, hj, hmj⟩ := hlater
              exact hzero j hj pIdx hmj
            · push_neg at hlater
              rw [hut pIdx (fun j hj => hlater j hj)]
              rw [setCcr_ccr]
              simp
          · exact hzero i hir p hp
        · intro p hp
          have hne : pIdx ≠ p := fun he => hp a (by simp) (by rw [hm, he])
          rw [hut p (fun j hj => hp j (by simp [hj]))]
          exact setCcr_ports_ne s pIdx 0 p (fun he => hne he.symm)
        · exact hcnt

/-- C1 counterexample: in the demo state motors 0..2 are all fully
configured but motors 0 and 2 share timer 1 at non-adjacent indices
(motor 1 sits between them on timer 2); the "last seen timer" cursor
then forces timer 1 to overflow twice, not exactly once. -/
theorem pwmOneshot_duplicate_overflow_counterexample :
    (∀ i, i < 3 → motorCcrBound demoState i = true ∧
      (motorTim demoState i).isSome = true) ∧
    motorTim demoState 0 = some 1 ∧
    motorTim demoState 1 = some 2 ∧
    motorTim demoState 2 = some 1 ∧
    (pwmCompleteOneshotMotorUpdate demoState 3).map
      (fun r => r.2.count (PwmEvent.forceOverflow (some 1))) = some 2 := by
  refine ⟨by decide, rfl, rfl, rfl, ?_⟩
  decide

/-- C1 amended: when motors sharing a timer occupy adjacent indices
(the per-index timer list is grouped), the oneshot update forces each
timer appearing among motors `0..N-1` to overflow exactly once, and
afterwards every one of those motors' compare registers reads 0.  (For
non-adjacent sharing the routine issues a redundant extra overflow, as
the counterexample shows.) -/
theorem pwmOneshot_once_per_distinct_timer (s : PwmState) (N : Nat)
    (hconf : ∀ i, i < N → motorCcrBound s i = true)
    (hgrp : groupedTims ((List.range N).map (motorTim s)) = true) :
    ∃ r, pwmCompleteOneshotMotorUpdate s N = some r ∧
      (∀ t : Nat, some t ∈ (List.range N).map (motorTim s) →
        r.2.count (PwmEvent.forceOverflow (some t)) = 1) ∧
      (∀ i pIdx, i < N → s.motors i = some pIdx →
        (r.1.pwmOutputPorts pIdx).ccr = some 0) := by
  have hbound : ∀ i ∈ List.range N, (s.motors i).isSome = true := by
    intro i hi
    have h := hconf i (List.mem_range.mp hi)
    unfold motorCcrBound at h
    cases hm : s.motors i with
    | none => rw [hm] at h; simp at h
    | some p => rfl
  have h1 := oneshotOverflowLoop_eq_dedup (List.range N) s none hbound
  obtain ⟨r0, h2, hmot, hzero, hut, hcnt⟩ :=
    oneshotZeroLoop_spec (List.range N) s
      (fun i hi => hconf i (List.mem_range.mp hi))
  obtain ⟨s1, ev2⟩ := r0
  refine ⟨(s1, (dedupScan none ((List.range N).map (motorTim s))).map
      PwmEvent.forceOverflow ++ ev2), ?_, ?_, ?_⟩
  · unfold pwmCompleteOneshotMotorUpdate
    rw [h1, h2]
  · intro t hmem
    rw [List.count_append, count_map_forceOverflow,
      count_overflow_zero_of_ccrWrites ev2
        (oneshotZeroLoop_events (List.range N) s (s1, ev2) h2) (some t)]
    have hmemded : some t ∈ dedupScan none ((List.range N).map (motorTim s)) :=
      mem_dedupScan _ none (some t) hmem (by simp)
    have hnd := dedupScan_nodup ((List.range N).map (motorTim s)) hgrp none
    rw [Nat.add_zero]
    exact count_eq_one_of_nodup_mem hnd hmemded
  · intro i pIdx hi hm
    exact hzero i (List.mem_range.mpr hi) pIdx hm

/-- Witness for the amended C1: the first two demo motors sit on
distinct timers (an adjacently grouped assignment). -/
theorem pwmOneshot_once_per_distinct_timer_witness :
    ∃ r, pwmCompleteOneshotMotorUpdate demoState 2 = some r ∧
      (∀ t : Nat, some t ∈ (List.range 2).map (motorTim demoState) →
        r.2.count (PwmEvent.forceOverflow (some t)) = 1) ∧
      (∀ i pIdx, i < 2 → demoState.motors i = some pIdx →
        (r.1.pwmOutputPorts pIdx).ccr = some 0) :=
  pwmOneshot_once_per_distinct_timer demoState 2 (by decide) (by decide)

theorem pwmOutConfig_count (s : PwmState) (th : TimerHardware)
    (mhz period value : Nat) :
    ((pwmOutConfig s th mhz period value).1).allocatedOutputPortCount =
      s.allocatedOutputPortCount + 1 := by
  unfold pwmOutConfig
  by_cases h : th.handleResolves = true
  · simp [h]
  · simp [h]

theorem pwmWriteBrushed_count (s : PwmState) (i v : Nat) (s' : PwmState)
    (h : pwmWriteBrushed s i v = some s') :
    s'.allocatedOutputPortCount = s.allocatedOutputPortCount := by
  unfold pwmWriteBrushed at h
  split at h
  · exact Option.noConfusion h
  · split at h
    · exact Option.noConfusion h
    · injection h with h
      subst h
      rfl

theorem pwmWriteStandard_count (s : PwmState) (i v : Nat) (s' : PwmState)
    (h : pwmWriteStandard s i v = some s') :
    s'.allocatedOutputPortCount = s.allocatedOutputPortCount := by
  unfold pwmWriteStandard at h
  split at h
  · exact Option.noConfusion h
  · split at h
    · exact Option.noConfusion h
    · injection h with h
      subst h
      rfl

theorem pwmShutdownLoop_count (idxs : List Nat) :
    ∀ (s s' : PwmState), pwmShutdownLoop s idxs = some s' →
      s'.allocatedOutputPortCount = s.allocatedOutputPortCount := by
  induction idxs with
  | nil =>
    intro s s' h
    injection h with h
    subst h
    rfl
  | cons a rest ih =>
    intro s s' h
    cases hm : s.motors a with
    | none => simp [pwmShutdownLoop, hm] at h
    | some pIdx =>
      cases hc : (s.pwmOutputPorts pIdx).ccr with
      | none => simp [pwmShutdownLoop, hm, hc] at h
      | some cv =>
        simp only [pwmShutdownLoop, hm, hc] at h
        exact ih (setCcr s pIdx 0) s' h

theorem oneshotZeroLoop_count (idxs : List Nat) :
    ∀ (s : PwmState) (r : PwmState × List PwmEvent),
      oneshotZeroLoop s idxs = some r →
      r.1.allocatedOutputPortCount = s.allocatedOutputPortCount := by
  induction idxs with
  | nil =>
    intro s r h
    injection h with h
    subst h
    rfl
  | cons a rest ih =>
    intro s r h
    cases hm : s.motors a with
    | none => simp [oneshotZeroLoop, hm] at h
    | some pIdx =>
      cases hc : (s.pwmOutputPorts pIdx).ccr with
      | none => simp [oneshotZeroLoop, hm, hc] at h
      | some cv =>
        simp only [oneshotZeroLoop, hm, hc] at h
        rw [Option.map_eq_some'] at h
        obtain ⟨r0, h0, hr⟩ := h
        subst hr
        exact ih (setCcr s pIdx 0) r0 h0

/-- C8: every configuration call advances the allocation cursor by
exactly one — also when the timer handle fails to resolve — and no
other operation of the module ever changes it; in particular nothing
decrements it. -/
theorem allocation_cursor_monotone :
    (∀ s th mhz period value,
      ((pwmOutConfig s th mhz period value).1).allocatedOutputPortCount =
        s.allocatedOutputPortCount + 1) ∧
    (∀ s th i m r p,
      (pwmBrushedMotorConfig s th i m r p).allocatedOutputPortCount =
        s.allocatedOutputPortCount + 1) ∧
    (∀ s th i m r p,
      (pwmBrushlessMotorConfig s th i m r p).allocatedOutputPortCount =
        s.allocatedOutputPortCount + 1) ∧
    (∀ s th i m,
      (pwmOneshotMotorConfig s th i m).allocatedOutputPortCount =
        s.allocatedOutputPortCount + 1) ∧
    (∀ s th i m r p,
      (pwmServoConfig s th i m r p).allocatedOutputPortCount =
        s.allocatedOutputPortCount + 1) ∧
    (∀ M s i v s', pwmWriteMotor M s i v = some s' →
      s'.allocatedOutputPortCount = s.allocatedOutputPortCount) ∧
    (∀ MS s i v s', pwmWriteServo MS s i v = some s' →
      s'.allocatedOutputPortCount = s.allocatedOutputPortCount) ∧
    (∀ s n s', pwmShutdownPulsesForAllMotors s n = some s' →
      s'.allocatedOutputPortCount = s.allocatedOutputPortCount) ∧
    (∀ s n r, pwmCompleteOneshotMotorUpdate s n = some r →
      r.1.allocatedOutputPortCount = s.allocatedOutputPortCount) ∧
    (∀ s, (pwmDisableMotors s).allocatedOutputPortCount =
      s.allocatedOutputPortCount) ∧
    (∀ s, (pwmEnableMotors s).allocatedOutputPortCount =
      s.allocatedOutputPortCount) := by
  refine ⟨pwmOutConfig_count, ?_, ?_, ?_, ?_, ?_, ?_, ?_, ?_,
    fun s => rfl, fun s => rfl⟩
  · intro s th i m r p
    exact pwmOutConfig_count s th m ((m * 1000000 / r) % 65536) p
  · intro s th i m r p
    exact pwmOutConfig_count s th m ((m * 1000000 / r) % 65536) p
  · intro s th i m
    exact pwmOutConfig_count s th m 0xFFFF 0
  · intro s th i m r p
    exact pwmOutConfig_count s th m ((1000000 / r) % 65536) p
  · intro M s i v s' h
    unfold pwmWriteMotor at h
    split at h
    · injection h with h
      subst h
      rfl
    · split at h
      · split at h
        · exact pwmWriteBrushed_count s i v s' h
        · exact pwmWriteStandard_count s i v s' h
        · exact Option.noConfusion h
      · injection h with h
        subst h
        rfl
  · intro MS s i v s' h
    unfold pwmWriteServo at h
    split at h
    · injection h with h
      subst h
      rfl
    · split at h
      · split at h
        · exact Option.noConfusion h
        · injection h with h
          subst h
          rfl
      · injection h with h
        subst h
        rfl
  · intro s n s' h
    exact pwmShutdownLoop_count (List.range n) s s' h
  · intro s n r h
    unfold pwmCompleteOneshotMotorUpdate at h
    cases h1 : oneshotOverflowLoop s (List.range n) none with
    | none => rw [h1] at h; exact Option.noConfusion h
    | some ev1 =>
      rw [h1] at h
      cases h2 : oneshotZeroLoop s (List.range n) with
      | none => rw [h2] at h; exact Option.noConfusion h
      | some r2 =>
        rw [h2] at h
        obtain ⟨s2, ev2⟩ := r2
        have hr : r = (s2, ev1 ++ ev2) := by
          have h' : some (s2, ev1 ++ ev2) = some r := h
          injection h' with h'
          exact h'.symm
        subst hr
        exact oneshotZeroLoop_count (List.range n) s (s2, ev2) h2

/-- Witness for C8: the cursor advances by one on a concrete
configuration call (also with an unresolvable handle) and is untouched
by concrete write, shutdown, oneshot, disable and enable calls. -/
theorem allocation_cursor_monotone_witness :
    ((pwmOutConfig initState demoTh 1 2000 1500).1).allocatedOutputPortCount =
      initState.allocatedOutputPortCount + 1 ∧
    ((pwmOutConfig initState demoThBad 1 2000 1500).1).allocatedOutputPortCount =
      initState.allocatedOutputPortCount + 1 ∧
    (pwmBrushedMotorConfig initState demoTh 0 2 16000 1000).allocatedOutputPortCount =
      initState.allocatedOutputPortCount + 1 ∧
    demoOneshot3.1.allocatedOutputPortCount =
      demoState.allocatedOutputPortCount ∧
    (pwmDisableMotors demoState).allocatedOutputPortCount =
      demoState.allocatedOutputPortCount := by
  have h := allocation_cursor_monotone
  exact ⟨h.1 initState demoTh 1 2000 1500,
    h.1 initState demoThBad 1 2000 1500,
    h.2.1 initState demoTh 0 2 16000 1000,
    h.2.2.2.2.2.2.2.2.1 demoState 3 demoOneshot3 rfl,
    h.2.2.2.2.2.2.2.2.2.1 demoState⟩

/-- Witness for C10 at the boundary rate. -/
theorem isMotorBrushed_spec_witness :
    (isMotorBrushed 501 = true ↔ 500 < 501) ∧ isMotorBrushed 500 = false :=
  ⟨isMotorBrushed_spec.1 501, isMotorBrushed_spec.2.1⟩
